import Mathlib

/-!
Verification development for the Lido SDK rewards module
(`packages/sdk/src/rewards/rewards.ts`, class `LidoSDKRewards`).

The embedding models:
* the fixed-point share arithmetic (`sharesToSteth`, `calcShareRate`);
* the chain event source path `getRewardsFromChain`: merge of the three
  event streams, the classification fold, the post-filters and the
  `NOT_SUPPORTED` lower-bound check;
* the subgraph event source path `getRewardsFromSubgraph`: capping to the
  last indexed block, base-state seeding from the initial transfer/rebase
  entities, merge, fold and post-filters;
* the range resolver `parseProps` / `toBlockNumber` / `toBackBlock`.

Addresses are modelled as natural numbers with `0` as the canonical
zero/mint address; `addressEqual` (the case-insensitive comparison of the
source) coincides with equality on this normalized representation.
JavaScript `BigInt` arithmetic is modelled by `Int` with `Int.tdiv`
(division truncating toward zero, the `BigInt` semantics).  The external
reads (share balances, total supplies, event queries, subgraph fetches)
are inputs to the modelled functions; thrown errors are modelled by
`Except`.  The ES2019 `Array.prototype.sort` (stable) with the source's
comparator is modelled by the stable `List.insertionSort` keyed on the
same `(blockNumber, logIndex)` order.
-/

set_option linter.unusedVariables false
set_option linter.unnecessarySeqFocus false

abbrev Address := Nat

/-- `zeroAddress` of viem: the canonical zero/mint address. -/
def zeroAddress : Address := 0

/-- `addressEqual` from `common/utils/address-equal.ts`: case-insensitive
address comparison; on the normalized representation it is equality. -/
def addressEqual (a b : Address) : Bool := a == b

/-- `LidoSDKRewards.PRECISION = 10n ** 27n`. -/
def PRECISION : Int := 10 ^ 27

/-- Modelled from the spec: `sharesToSteth` lives in `rewards/utils.ts`,
which is not among the sources.  Spec section 4.5: `sharesToAsset(shares,
totalAssetUnits, totalShares, precision) = shares * totalAssetUnits /
totalShares` when `totalShares > 0`, else `0`; division truncates toward
zero.  The precision argument is threaded through by the callers but does
not change the truncated result. -/
def sharesToSteth (shares totalEther totalShares _precision : Int) : Int :=
  if 0 < totalShares then Int.tdiv (shares * totalEther) totalShares else 0

/-- Modelled from the spec: `calcShareRate` lives in `rewards/utils.ts`,
which is not among the sources.  Spec section 4.5: `computeShareRate(
totalAssetUnits, totalShares, precision) = totalAssetUnits * precision /
totalShares` when `totalShares > 0`, else `0`; truncating division. -/
def calcShareRate (totalEther totalShares precision : Int) : Int :=
  if 0 < totalShares then Int.tdiv (totalEther * precision) totalShares else 0

/-- A `TransferShares` log of the stETH contract (chain source). -/
structure TransferSharesEvent where
  from_ : Address
  to_ : Address
  sharesValue : Int
  blockNumber : Int
  logIndex : Int
deriving DecidableEq

/-- A `TokenRebased` log of the stETH contract (chain source). -/
structure TokenRebasedEvent where
  postTotalEther : Int
  postTotalShares : Int
  blockNumber : Int
  logIndex : Int
deriving DecidableEq

/-- `RewardsChainEvents`: the tagged union the chain fold consumes. -/
inductive RewardsChainEvent where
  | transferShares (e : TransferSharesEvent)
  | tokenRebased (e : TokenRebasedEvent)
deriving DecidableEq

/-- Reward record type tags: `'submit' | 'transfer_in' | 'transfer_out' |
'withdrawal' | 'rebase'`. -/
inductive RewardType where
  | submit
  | transfer_in
  | transfer_out
  | withdrawal
  | rebase
deriving DecidableEq

/-- `Reward<TEvent>` from `rewards/types.ts` (as used by the source). -/
structure Reward (ε : Type) where
  type : RewardType
  balanceShares : Int
  changeShares : Int
  change : Int
  balance : Int
  shareRate : Int
  originalEvent : ε
deriving DecidableEq

/-- Sort key of the merge comparator: `(blockNumber, logIndex)`. -/
def chainEventKey : RewardsChainEvent → Int × Int
  | .transferShares e => (e.blockNumber, e.logIndex)
  | .tokenRebased e => (e.blockNumber, e.logIndex)

/-- Lexicographic "not after" order on `(blockNumber, logIndex)` keys: the
order established by the source's merge comparator. -/
def lexLe (a b : Int × Int) : Prop :=
  a.1 < b.1 ∨ (a.1 = b.1 ∧ a.2 ≤ b.2)

instance : DecidableRel lexLe := fun a b => by
  unfold lexLe
  exact inferInstance

/-- The merge order on chain events. -/
def chainEventLe (e1 e2 : RewardsChainEvent) : Prop :=
  lexLe (chainEventKey e1) (chainEventKey e2)

instance : DecidableRel chainEventLe := fun a b => by
  unfold chainEventLe
  exact inferInstance

instance : IsTotal RewardsChainEvent chainEventLe :=
  ⟨fun a b => by unfold chainEventLe lexLe; omega⟩

instance : IsTrans RewardsChainEvent chainEventLe :=
  ⟨fun a b c => by unfold chainEventLe lexLe; omega⟩

/-- The queried account and the withdrawal queue contract address, the two
addresses the classification branches on. -/
structure AddressCfg where
  address : Address
  withdrawalQueueAddress : Address
deriving DecidableEq

/-- The mutable bindings threaded through the chain-path `events.map`
closure: `currentTotalEther`, `currentTotalShares`, `shareRate`,
`prevSharesBalance`, `totalRewards`. -/
structure ChainFoldState where
  currentTotalEther : Int
  currentTotalShares : Int
  shareRate : Int
  prevSharesBalance : Int
  totalRewards : Int
deriving DecidableEq

/-- One iteration of the chain-path `events.map` body (rewards.ts lines
383-431): classify the event, produce the reward record and the updated
mutable state. -/
def stepChain (cfg : AddressCfg) (st : ChainFoldState) :
    RewardsChainEvent → Reward RewardsChainEvent × ChainFoldState
  | .transferShares e =>
    if e.to_ = cfg.address then
      let balanceShares := st.prevSharesBalance + e.sharesValue
      let changeShares := e.sharesValue
      let ty := if e.from_ = zeroAddress then RewardType.submit else RewardType.transfer_in
      (⟨ty, balanceShares, changeShares,
        sharesToSteth changeShares st.currentTotalEther st.currentTotalShares PRECISION,
        sharesToSteth balanceShares st.currentTotalEther st.currentTotalShares PRECISION,
        st.shareRate, .transferShares e⟩,
        { st with prevSharesBalance := balanceShares })
    else
      let balanceShares := st.prevSharesBalance - e.sharesValue
      let changeShares := -e.sharesValue
      let ty := if e.to_ = cfg.withdrawalQueueAddress then RewardType.withdrawal else RewardType.transfer_out
      (⟨ty, balanceShares, changeShares,
        sharesToSteth changeShares st.currentTotalEther st.currentTotalShares PRECISION,
        sharesToSteth balanceShares st.currentTotalEther st.currentTotalShares PRECISION,
        st.shareRate, .transferShares e⟩,
        { st with prevSharesBalance := balanceShares })
  | .tokenRebased e =>
    let oldBalance := sharesToSteth st.prevSharesBalance st.currentTotalEther st.currentTotalShares PRECISION
    let newBalance := sharesToSteth st.prevSharesBalance e.postTotalEther e.postTotalShares PRECISION
    let newShareRate := calcShareRate e.postTotalEther e.postTotalShares PRECISION
    let change := newBalance - oldBalance
    (⟨RewardType.rebase, st.prevSharesBalance, 0, change, newBalance, newShareRate, .tokenRebased e⟩,
      { currentTotalEther := e.postTotalEther
        currentTotalShares := e.postTotalShares
        shareRate := newShareRate
        prevSharesBalance := st.prevSharesBalance
        totalRewards := st.totalRewards + change })

/-- Sequential left-to-right traversal producing one output record per
event and threading the fold state: the semantics of `events.map` with a
state-mutating closure. -/
def runFold {σ ρ ev : Type} (step : σ → ev → ρ × σ) (st : σ) : List ev → List ρ × σ
  | [] => ([], st)
  | e :: es =>
    let p := step st e
    let rest := runFold step p.2 es
    (p.1 :: rest.1, rest.2)

/-- The resolved inputs of `getRewardsFromChain`: parsed props, the
per-network `EARLIEST_TOKEN_REBASED_EVENT` constant, the base reads at
`preBlock`, and the three fetched event streams. -/
structure ChainInput where
  address : Address
  withdrawalQueueAddress : Address
  earliestRebaseEventBlock : Int
  fromBlock : Int
  toBlock : Int
  includeZeroRebases : Bool
  includeOnlyRebases : Bool
  baseBalanceShares : Int
  baseTotalEther : Int
  baseTotalShares : Int
  transferOutEvents : List TransferSharesEvent
  transferInEvents : List TransferSharesEvent
  rebaseEvents : List TokenRebasedEvent
deriving DecidableEq

/-- An SDK error thrown via `this.core.error` / `invariantArgument`. -/
structure SDKError where
  message : String
  code : String
deriving DecidableEq

/-- `GetRewardsFromChainResult`. -/
structure GetRewardsFromChainResult where
  rewards : List (Reward RewardsChainEvent)
  baseBalanceShares : Int
  baseShareRate : Int
  baseBalance : Int
  totalRewards : Int
  fromBlock : Int
  toBlock : Int
deriving DecidableEq

def chainCfg (inp : ChainInput) : AddressCfg :=
  ⟨inp.address, inp.withdrawalQueueAddress⟩

/-- The merged chain event sequence: `[].concat(transferInEvents,
transferOutEvents, rebaseEvents)` followed by the stable sort on
`(blockNumber, logIndex)`. -/
def chainEvents (inp : ChainInput) : List RewardsChainEvent :=
  List.insertionSort chainEventLe
    ((inp.transferInEvents.map RewardsChainEvent.transferShares) ++
      (inp.transferOutEvents.map RewardsChainEvent.transferShares) ++
      (inp.rebaseEvents.map RewardsChainEvent.tokenRebased))

/-- Initial fold state of the chain path: base totals, the share rate
derived from them, the base share balance and a zero reward accumulator. -/
def chainInitState (inp : ChainInput) : ChainFoldState :=
  { currentTotalEther := inp.baseTotalEther
    currentTotalShares := inp.baseTotalShares
    shareRate := calcShareRate inp.baseTotalEther inp.baseTotalShares PRECISION
    prevSharesBalance := inp.baseBalanceShares
    totalRewards := 0 }

/-- The unfiltered merged-and-folded chain sequence together with the
final fold state. -/
def chainFold (inp : ChainInput) : List (Reward RewardsChainEvent) × ChainFoldState :=
  runFold (stepChain (chainCfg inp)) (chainInitState inp) (chainEvents inp)

/-- `if (!includeOnlyRebases) rewards = rewards.filter((r) => r.type ===
'rebase')` (chain path lines 433-435, subgraph path lines 658-660). -/
def filterOnlyRebases {ε : Type} (includeOnlyRebases : Bool) (rs : List (Reward ε)) :
    List (Reward ε) :=
  if !includeOnlyRebases then rs.filter (fun r => r.type == RewardType.rebase) else rs

/-- `if (!includeZeroRebases) rewards = rewards.filter((r) => !(r.type ===
'rebase' && r.change === 0n))` (chain path lines 437-441, subgraph path
lines 652-656). -/
def filterZeroRebases {ε : Type} (includeZeroRebases : Bool) (rs : List (Reward ε)) :
    List (Reward ε) :=
  if !includeZeroRebases then
    rs.filter (fun r => !(r.type == RewardType.rebase && r.change == 0))
  else rs

/-- `getRewardsFromChain` on resolved inputs: the lower-bound
`NOT_SUPPORTED` check, the merge-and-fold, the two post-filters (only-
rebases first, zero-rebases second) and the result assembly. -/
def getRewardsFromChain (inp : ChainInput) : Except SDKError GetRewardsFromChainResult :=
  if inp.fromBlock < inp.earliestRebaseEventBlock then
    .error
      { message := "Cannot index events earlier than first TokenRebased event at block " ++
          toString inp.earliestRebaseEventBlock
        code := "NOT_SUPPORTED" }
  else
    let fold := chainFold inp
    let rewards :=
      filterZeroRebases inp.includeZeroRebases
        (filterOnlyRebases inp.includeOnlyRebases fold.1)
    .ok
      { rewards := rewards
        baseBalanceShares := inp.baseBalanceShares
        baseShareRate := (chainInitState inp).shareRate
        baseBalance := sharesToSteth inp.baseBalanceShares inp.baseTotalEther inp.baseTotalShares PRECISION
        totalRewards := fold.2.totalRewards
        fromBlock := inp.fromBlock
        toBlock := inp.toBlock }

/-- A transfer entity of the subgraph (`TransferEventEntity`): carries the
denormalized post-transfer balances; the `'value' in event` discriminator
of the source is the constructor tag here. -/
structure TransferEventEntity where
  from_ : Address
  to_ : Address
  shares : Int
  sharesAfterIncrease : Int
  value : Int
  balanceAfterDecrease : Int
  balanceAfterIncrease : Int
  sharesAfterDecrease : Int
  totalPooledEther : Int
  totalShares : Int
  block : Int
  logIndex : Int
deriving DecidableEq

/-- A rebase / total-reward entity of the subgraph (`TotalRewardEntity`);
only the fields the source reads are modelled (`'apr' in event` is the
discriminator). -/
structure TotalRewardEntity where
  totalPooledEtherAfter : Int
  totalSharesAfter : Int
  block : Int
  logIndex : Int
deriving DecidableEq

/-- `RewardsSubgraphEvents`: the tagged union the subgraph fold consumes. -/
inductive RewardsSubgraphEvent where
  | transfer (e : TransferEventEntity)
  | totalReward (e : TotalRewardEntity)
deriving DecidableEq

/-- Sort key of the subgraph merge: `(BigInt(block), Number(logIndex))`. -/
def subgraphEventKey : RewardsSubgraphEvent → Int × Int
  | .transfer e => (e.block, e.logIndex)
  | .totalReward e => (e.block, e.logIndex)

/-- The merge order on subgraph events. -/
def subgraphEventLe (e1 e2 : RewardsSubgraphEvent) : Prop :=
  lexLe (subgraphEventKey e1) (subgraphEventKey e2)

instance : DecidableRel subgraphEventLe := fun a b => by
  unfold subgraphEventLe
  exact inferInstance

instance : IsTotal RewardsSubgraphEvent subgraphEventLe :=
  ⟨fun a b => by unfold subgraphEventLe lexLe; omega⟩

instance : IsTrans RewardsSubgraphEvent subgraphEventLe :=
  ⟨fun a b c => by unfold subgraphEventLe lexLe; omega⟩

/-- The mutable bindings of the subgraph-path fold: `prevBalanceShares`,
`prevBalance`, `totalRewards`. -/
structure SubgraphFoldState where
  prevBalanceShares : Int
  prevBalance : Int
  totalRewards : Int
deriving DecidableEq

/-- One iteration of the subgraph-path `events.map` body (rewards.ts lines
565-650): transfers copy the denormalized after-values off the entity,
rebases recompute the balance from the after-totals. -/
def stepSubgraph (cfg : AddressCfg) (st : SubgraphFoldState) :
    RewardsSubgraphEvent → Reward RewardsSubgraphEvent × SubgraphFoldState
  | .transfer e =>
    if addressEqual e.to_ cfg.address then
      let ty := if e.from_ = zeroAddress then RewardType.submit else RewardType.transfer_in
      (⟨ty, e.sharesAfterIncrease, e.shares, e.value, e.balanceAfterIncrease,
        calcShareRate e.totalPooledEther e.totalShares PRECISION, .transfer e⟩,
        { st with
          prevBalance := e.balanceAfterIncrease
          prevBalanceShares := e.sharesAfterIncrease })
    else
      let ty := if addressEqual e.to_ cfg.withdrawalQueueAddress then RewardType.withdrawal
        else RewardType.transfer_out
      (⟨ty, e.sharesAfterDecrease, -e.shares, -e.value, e.balanceAfterDecrease,
        calcShareRate e.totalPooledEther e.totalShares PRECISION, .transfer e⟩,
        { st with
          prevBalance := e.balanceAfterDecrease
          prevBalanceShares := e.sharesAfterDecrease })
  | .totalReward e =>
    let newBalance := sharesToSteth st.prevBalanceShares e.totalPooledEtherAfter e.totalSharesAfter PRECISION
    let change := newBalance - st.prevBalance
    (⟨RewardType.rebase, st.prevBalanceShares, 0, change, newBalance,
      calcShareRate e.totalPooledEtherAfter e.totalSharesAfter PRECISION, .totalReward e⟩,
      { prevBalanceShares := st.prevBalanceShares
        prevBalance := newBalance
        totalRewards := st.totalRewards + change })

/-- The resolved scalar inputs of `getRewardsFromSubgraph`. -/
structure SubgraphInput where
  address : Address
  withdrawalQueueAddress : Address
  fromBlock : Int
  toBlock : Int
  includeZeroRebases : Bool
  includeOnlyRebases : Bool
  lastIndexedBlock : Int
deriving DecidableEq

/-- The subgraph query collaborators, as functions of the block range
(account, url, page size are fixed externally): `getTransfers`,
`getTotalRewards` over `[fromBlock, cappedToBlock]` and `getInitialData`
at `preBlock`. -/
structure SubgraphFetchers where
  getTransfers : Int → Int → List TransferEventEntity
  getTotalRewards : Int → Int → List TotalRewardEntity
  getInitialData : Int → Option TransferEventEntity × Option TotalRewardEntity

/-- `cappedToBlock = lastIndexedBlock < toBlock ? lastIndexedBlock :
toBlock`. -/
def cappedToBlock (inp : SubgraphInput) : Int :=
  if inp.lastIndexedBlock < inp.toBlock then inp.lastIndexedBlock else inp.toBlock

/-- `preBlock = fromBlock === 0n ? 0n : fromBlock - 1n` (subgraph path). -/
def subgraphPreBlock (inp : SubgraphInput) : Int :=
  if inp.fromBlock = 0 then 0 else inp.fromBlock - 1

/-- The merged subgraph event sequence: `[].concat(rebases, transfers)`
followed by the stable sort on `(block, logIndex)`; both streams are
fetched up to `cappedToBlock`. -/
def subgraphEvents (f : SubgraphFetchers) (inp : SubgraphInput) : List RewardsSubgraphEvent :=
  List.insertionSort subgraphEventLe
    (((f.getTotalRewards inp.fromBlock (cappedToBlock inp)).map RewardsSubgraphEvent.totalReward) ++
      ((f.getTransfers inp.fromBlock (cappedToBlock inp)).map RewardsSubgraphEvent.transfer))

/-- Seeding of `prevBalanceShares` / `prevBalance` from the last transfer
before the range (rewards.ts lines 517-538): sides of the transfer picked
by `addressEqual` against the queried account. -/
def subgraphSeedShares (address : Address) :
    Option TransferEventEntity → Int × Int
  | none => (0, 0)
  | some t =>
    if addressEqual t.to_ address then (t.sharesAfterIncrease, t.balanceAfterIncrease)
    else if addressEqual t.from_ address then (t.sharesAfterDecrease, t.balanceAfterDecrease)
    else (0, 0)

/-- Seeding of the base share rate and the recounted base balance from the
last rebase before the range (rewards.ts lines 540-558); the result is
`(prevBalanceShares, prevBalance, baseShareRate)`. -/
def subgraphSeed (address : Address) (initialTransfer : Option TransferEventEntity)
    (initialRebase : Option TotalRewardEntity) : Int × Int × Int :=
  let s := subgraphSeedShares address initialTransfer
  match initialRebase with
  | none => (s.1, s.2, 0)
  | some r =>
    (s.1,
      sharesToSteth s.1 r.totalPooledEtherAfter r.totalSharesAfter PRECISION,
      calcShareRate r.totalPooledEtherAfter r.totalSharesAfter PRECISION)

/-- `GetRewardsFromSubgraphResult`. -/
structure GetRewardsFromSubgraphResult where
  rewards : List (Reward RewardsSubgraphEvent)
  baseBalance : Int
  lastIndexedBlock : Int
  baseBalanceShares : Int
  totalRewards : Int
  baseShareRate : Int
  fromBlock : Int
  toBlock : Int
deriving DecidableEq

/-- The seed triple of a subgraph query. -/
def subgraphSeedOf (f : SubgraphFetchers) (inp : SubgraphInput) : Int × Int × Int :=
  subgraphSeed inp.address (f.getInitialData (subgraphPreBlock inp)).1
    (f.getInitialData (subgraphPreBlock inp)).2

/-- Initial fold state of the subgraph path. -/
def subgraphInitState (f : SubgraphFetchers) (inp : SubgraphInput) : SubgraphFoldState :=
  { prevBalanceShares := (subgraphSeedOf f inp).1
    prevBalance := (subgraphSeedOf f inp).2.1
    totalRewards := 0 }

/-- The unfiltered merged-and-folded subgraph sequence together with the
final fold state. -/
def subgraphFold (f : SubgraphFetchers) (inp : SubgraphInput) :
    List (Reward RewardsSubgraphEvent) × SubgraphFoldState :=
  runFold (stepSubgraph ⟨inp.address, inp.withdrawalQueueAddress⟩)
    (subgraphInitState f inp) (subgraphEvents f inp)

/-- `getRewardsFromSubgraph` on resolved inputs: cap to the last indexed
block, fetch, seed, merge-and-fold, post-filters (zero-rebases first,
only-rebases second on this path) and result assembly; the returned
`toBlock` is the capped one. -/
def getRewardsFromSubgraph (f : SubgraphFetchers) (inp : SubgraphInput) :
    GetRewardsFromSubgraphResult :=
  let seed := subgraphSeedOf f inp
  let fold := subgraphFold f inp
  let rewards :=
    filterOnlyRebases inp.includeOnlyRebases
      (filterZeroRebases inp.includeZeroRebases fold.1)
  { rewards := rewards
    baseBalance := seed.2.1
    lastIndexedBlock := inp.lastIndexedBlock
    baseBalanceShares := seed.1
    totalRewards := fold.2.totalRewards
    baseShareRate := seed.2.2
    fromBlock := inp.fromBlock
    toBlock := cappedToBlock inp }

/-- A user-supplied block specifier (`BlockArgumentType`): a timestamp, an
explicit block number, or a named block tag. -/
inductive BlockArg where
  | timestamp (t : Int)
  | blockNumber (b : Int)
  | tag (s : String)
deriving DecidableEq

/-- A user-supplied "back" specifier (`BackArgumentType`): optional
`blocks`, `days`, `seconds` fields. -/
structure BackArg where
  blocks : Option Int
  days : Option Int
  seconds : Option Int
deriving DecidableEq

/-- The chain lookups the range resolver delegates to: `getBlock` by tag
(`none` models a pending block whose `number` is `null`),
`getLatestBlockToTimestamp`, and `Date.now()` in milliseconds. -/
structure RangeEnv where
  resolveTag : String → Option Int
  blockAtTimestamp : Int → Int
  nowMs : Int

/-- An argument error raised by `invariantArgument`. -/
def invalidArgumentError (msg : String) : SDKError :=
  { message := msg, code := "INVALID_ARGUMENT" }

/-- `toBlockNumber` (rewards.ts lines 712-725).  The pending check is
`invariantArgument(number, 'block must not be pending')`: a JavaScript
truthiness test on `number : bigint | null`, which rejects both `null`
(pending) and the mined genesis block number `0n` (falsy). -/
def toBlockNumber (env : RangeEnv) : BlockArg → Except SDKError Int
  | .timestamp t => .ok (env.blockAtTimestamp t)
  | .blockNumber b => .ok b
  | .tag s =>
    match env.resolveTag s with
    | none => .error (invalidArgumentError "block must not be pending")
    | some n =>
      if n = 0 then .error (invalidArgumentError "block must not be pending") else .ok n

/-- JavaScript truthiness of an optional bigint field: present and
nonzero. -/
def truthyOpt : Option Int → Option Int
  | some v => if v = 0 then none else some v
  | none => none

/-- `toBackBlock` (rewards.ts lines 727-745).  The three branches are JS
truthiness tests on the optional bigint fields.  `Date.now()` millisecond
arithmetic is modelled with truncating division (the source coerces
`Date.now() / 1000` through `BigInt`). -/
def toBackBlock (env : RangeEnv) (arg : BackArg) (start : Int) : Except SDKError Int :=
  match truthyOpt arg.blocks with
  | some b =>
    if start - b ≥ 0 then .ok (start - b)
    else .error (invalidArgumentError "Too many blocks back")
  | none =>
    match truthyOpt arg.days with
    | some d => .ok (env.blockAtTimestamp (Int.tdiv (env.nowMs - d * 86400000) 1000))
    | none =>
      match truthyOpt arg.seconds with
      | some s => .ok (env.blockAtTimestamp (Int.tdiv env.nowMs 1000 - s))
      | none => .error (invalidArgumentError "must have at least something in back argument")

/-- The unresolved reward-query props (`GetRewardsOptions` range part). -/
structure RewardsProps where
  to_ : Option BlockArg
  from_ : Option BlockArg
  back : BackArg
  step : Option Int
  includeZeroRebases : Option Bool
  includeOnlyRebases : Option Bool
deriving DecidableEq

/-- The output of `parseProps`. -/
structure ParsedProps where
  fromBlock : Int
  toBlock : Int
  step : Int
  includeZeroRebases : Bool
  includeOnlyRebases : Bool
deriving DecidableEq

/-- `parseProps` (rewards.ts lines 674-710): resolve `toBlock` (default
tag `latest`), resolve `fromBlock` from `from` or from `back`, check
`toBlock >= fromBlock`, default and check `step > 0`, default the two
filter flags to `false`. -/
def parseProps (env : RangeEnv) (props : RewardsProps) : Except SDKError ParsedProps := do
  let toBlock ← toBlockNumber env (props.to_.getD (BlockArg.tag "latest"))
  let fromBlock ← match props.from_ with
    | some f => toBlockNumber env f
    | none => toBackBlock env props.back toBlock
  if toBlock ≥ fromBlock then
    let step := props.step.getD 1000
    if step > 0 then
      .ok
        { fromBlock := fromBlock
          toBlock := toBlock
          step := step
          includeZeroRebases := props.includeZeroRebases.getD false
          includeOnlyRebases := props.includeOnlyRebases.getD false }
    else .error (invalidArgumentError "steps must be a positive integer")
  else .error (invalidArgumentError "toBlock is lower than fromBlock")

/-- Sum of the `change` fields over the `rebase`-typed records of a
sequence (what `totalRewards` is claimed to equal). -/
def sumRebaseChange {ε : Type} (rs : List (Reward ε)) : Int :=
  ((rs.filter (fun r => r.type == RewardType.rebase)).map (fun r => r.change)).sum

/-- Checker for the running-balance invariant: each record's
`balanceShares` equals the previous one plus its `changeShares`, starting
from the given base. -/
def balanceSharesOk {ε : Type} : Int → List (Reward ε) → Bool
  | _, [] => true
  | prev, r :: rs => (r.balanceShares == prev + r.changeShares) && balanceSharesOk r.balanceShares rs

/-- Adjacent-pair checker: the records' original events are non-decreasing
in the `(blockNumber, logIndex)` key. -/
def sortedByKey {ε : Type} (key : ε → Int × Int) : List (Reward ε) → Bool
  | [] => true
  | [_] => true
  | r1 :: r2 :: rs =>
    decide (lexLe (key r1.originalEvent) (key r2.originalEvent)) && sortedByKey key (r2 :: rs)

/-- Consistency of the subgraph's denormalized after-shares with the share
deltas, along a stream, starting from a given running share balance: what
the chain path derives, the subgraph entities must carry. -/
def subgraphSharesConsistent (cfg : AddressCfg) : Int → List RewardsSubgraphEvent → Bool
  | _, [] => true
  | prev, .transfer e :: es =>
    if addressEqual e.to_ cfg.address then
      (e.sharesAfterIncrease == prev + e.shares) &&
        subgraphSharesConsistent cfg e.sharesAfterIncrease es
    else
      (e.sharesAfterDecrease == prev - e.shares) &&
        subgraphSharesConsistent cfg e.sharesAfterDecrease es
  | prev, .totalReward _ :: es => subgraphSharesConsistent cfg prev es


/-- A submit transfer (from the zero address) at block 1. -/
def sampleTransferIn : TransferSharesEvent := ⟨0, 1, 50, 1, 0⟩

/-- A rebase at block 2 taking the totals from (1000, 1000) to
(1100, 1000). -/
def sampleRebaseEvent : TokenRebasedEvent := ⟨1100, 1000, 2, 0⟩

/-- A concrete chain query with the default filter flags: account 1,
withdrawal queue 2, base shares 100 at totals (1000, 1000). -/
def sampleChainInput : ChainInput :=
  ⟨1, 2, 0, 0, 10, false, false, 100, 1000, 1000, [], [sampleTransferIn], [sampleRebaseEvent]⟩

/-- The same chain query with both filters disabled (the full sequence is
returned). -/
def sampleChainInputAll : ChainInput :=
  { sampleChainInput with includeZeroRebases := true, includeOnlyRebases := true }

/-- The sample chain query on a network whose earliest TokenRebased event
is at block 100, so that the requested `fromBlock = 0` precedes it. -/
def badChainInput : ChainInput :=
  { sampleChainInput with earliestRebaseEventBlock := 100 }

/-- A chain query (default filter flags) with a rebase at block 1, an
incoming transfer of 100 shares at block 2 and another rebase at block 3:
the returned (filtered) sequence keeps only the two rebase records, whose
`balanceShares` differ while their `changeShares` are both zero. -/
def cexChainInput : ChainInput :=
  ⟨1, 2, 0, 0, 10, false, false, 100, 1000, 1000, [],
    [⟨3, 1, 100, 2, 0⟩], [⟨1100, 1000, 1, 0⟩, ⟨1200, 1000, 3, 0⟩]⟩

/-- A subgraph transfer entity: 50 shares minted to account 1 at block 1,
denormalized after-values consistent with the delta. -/
def sampleTransferEntity : TransferEventEntity :=
  ⟨0, 1, 50, 50, 50, 0, 50, 0, 1000, 1000, 1, 0⟩

/-- A subgraph rebase entity at block 2 with after-totals (1100, 1000). -/
def sampleTotalRewardEntity : TotalRewardEntity := ⟨1100, 1000, 2, 0⟩

/-- Concrete subgraph collaborators returning the sample entities and no
initial data. -/
def sampleFetchers : SubgraphFetchers :=
  ⟨fun _ _ => [sampleTransferEntity], fun _ _ => [sampleTotalRewardEntity], fun _ => (none, none)⟩

/-- A concrete subgraph query: account 1, withdrawal queue 2, range
[0, 10], default filter flags, last indexed block 5. -/
def sampleSubgraphInput : SubgraphInput := ⟨1, 2, 0, 10, false, false, 5⟩

/-- The same subgraph query with both filters disabled. -/
def sampleSubgraphInputAll : SubgraphInput :=
  { sampleSubgraphInput with includeZeroRebases := true, includeOnlyRebases := true }

/-- The synthetic rebase-only stream of the spec's round-trip property:
`N` rebases at consecutive blocks, each lifting total-ether by `delta`
from the previous value while total-shares stays at `S`. -/
def syntheticRebases (E0 delta S startBlock : Int) : Nat → List TokenRebasedEvent
  | 0 => []
  | n + 1 =>
    ⟨E0 + delta, S, startBlock, 0⟩ :: syntheticRebases (E0 + delta) delta S (startBlock + 1) n

/-- The chain query for the synthetic stream: zero transfers, `N` rebases,
base share balance `s`, base totals `(E0, S)`, both post-filters disabled
so the full folded sequence is returned. -/
def syntheticChainInput (s E0 S delta : Int) (N : Nat) : ChainInput :=
  ⟨1, 2, 0, 0, Int.ofNat N + 1, true, true, s, E0, S, [], [],
    syntheticRebases E0 delta S 1 N⟩

/-- The changes the synthetic rebases produce: differences of consecutive
truncated conversions of the constant share balance `s`. -/
def expectedRebaseChanges (s E0 S delta : Int) : Nat → List Int
  | 0 => []
  | n + 1 =>
    (sharesToSteth s (E0 + delta) S PRECISION - sharesToSteth s E0 S PRECISION) ::
      expectedRebaseChanges s (E0 + delta) S delta n

lemma runFold_map_originalEvent {σ ev : Type} (step : σ → ev → Reward ev × σ)
    (h : ∀ st e, ((step st e).1).originalEvent = e) :
    ∀ (es : List ev) (st : σ),
      ((runFold step st es).1).map (fun r => r.originalEvent) = es := by
  intro es
  induction es with
  | nil => intro st; rfl
  | cons e es ih =>
    intro st
    simp [runFold, h, ih]

lemma runFold_totalRewards {σ ev : Type} (step : σ → ev → Reward ev × σ) (proj : σ → Int)
    (h : ∀ st e, proj ((step st e).2) =
      proj st + (if ((step st e).1).type = RewardType.rebase then ((step st e).1).change else 0)) :
    ∀ (es : List ev) (st : σ),
      proj ((runFold step st es).2) = proj st + sumRebaseChange ((runFold step st es).1) := by
  intro es
  induction es with
  | nil => intro st; simp [runFold, sumRebaseChange]
  | cons e es ih =>
    intro st
    simp only [runFold]
    rw [ih ((step st e).2), h st e]
    by_cases hr : ((step st e).1).type = RewardType.rebase
    · simp [sumRebaseChange, List.filter_cons, hr]
      ring
    · simp [sumRebaseChange, List.filter_cons, hr]

lemma runFold_balanceSharesOk {σ ev : Type} (step : σ → ev → Reward ev × σ) (proj : σ → Int)
    (h1 : ∀ st e, ((step st e).1).balanceShares = proj st + ((step st e).1).changeShares)
    (h2 : ∀ st e, proj ((step st e).2) = ((step st e).1).balanceShares) :
    ∀ (es : List ev) (st : σ),
      balanceSharesOk (proj st) ((runFold step st es).1) = true := by
  intro es
  induction es with
  | nil => intro st; rfl
  | cons e es ih =>
    intro st
    simp only [runFold, balanceSharesOk, Bool.and_eq_true, beq_iff_eq]
    refine ⟨h1 st e, ?_⟩
    have htail := ih ((step st e).2)
    rw [h2 st e] at htail
    exact htail

lemma runFold_rebase_changeShares {σ ev : Type} (step : σ → ev → Reward ev × σ)
    (h : ∀ st e, ((step st e).1).type = RewardType.rebase → ((step st e).1).changeShares = 0) :
    ∀ (es : List ev) (st : σ) r, r ∈ (runFold step st es).1 →
      r.type = RewardType.rebase → r.changeShares = 0 := by
  intro es
  induction es with
  | nil => intro st r hr; simp [runFold] at hr
  | cons e es ih =>
    intro st r hr hty
    simp only [runFold, List.mem_cons] at hr
    rcases hr with hr | hr
    · subst hr; exact h st e hty
    · exact ih _ r hr hty

lemma stepChain_originalEvent (cfg : AddressCfg) :
    ∀ st e, ((stepChain cfg st e).1).originalEvent = e := by
  intro st e
  cases e <;> simp only [stepChain] <;> split_ifs <;> rfl

lemma stepChain_totalRewards (cfg : AddressCfg) :
    ∀ st e, ((stepChain cfg st e).2).totalRewards =
      st.totalRewards +
        (if ((stepChain cfg st e).1).type = RewardType.rebase
          then ((stepChain cfg st e).1).change else 0) := by
  intro st e
  cases e <;> simp only [stepChain] <;> split_ifs <;> simp_all

lemma stepChain_balanceShares (cfg : AddressCfg) :
    ∀ st e, ((stepChain cfg st e).1).balanceShares =
      st.prevSharesBalance + ((stepChain cfg st e).1).changeShares := by
  intro st e
  cases e <;> simp only [stepChain] <;> (try split_ifs) <;> simp <;> ring

lemma stepChain_prevShares (cfg : AddressCfg) :
    ∀ st e, ((stepChain cfg st e).2).prevSharesBalance =
      ((stepChain cfg st e).1).balanceShares := by
  intro st e
  cases e <;> simp only [stepChain] <;> split_ifs <;> rfl

lemma stepChain_rebase_changeShares (cfg : AddressCfg) :
    ∀ st e, ((stepChain cfg st e).1).type = RewardType.rebase →
      ((stepChain cfg st e).1).changeShares = 0 := by
  intro st e
  cases e <;> simp only [stepChain] <;> (try split_ifs) <;> simp_all

lemma stepSubgraph_originalEvent (cfg : AddressCfg) :
    ∀ st e, ((stepSubgraph cfg st e).1).originalEvent = e := by
  intro st e
  cases e <;> simp only [stepSubgraph] <;> split_ifs <;> rfl

lemma stepSubgraph_totalRewards (cfg : AddressCfg) :
    ∀ st e, ((stepSubgraph cfg st e).2).totalRewards =
      st.totalRewards +
        (if ((stepSubgraph cfg st e).1).type = RewardType.rebase
          then ((stepSubgraph cfg st e).1).change else 0) := by
  intro st e
  cases e <;> simp only [stepSubgraph] <;> split_ifs <;> simp_all

lemma stepSubgraph_rebase_changeShares (cfg : AddressCfg) :
    ∀ st e, ((stepSubgraph cfg st e).1).type = RewardType.rebase →
      ((stepSubgraph cfg st e).1).changeShares = 0 := by
  intro st e
  cases e <;> simp only [stepSubgraph] <;> (try split_ifs) <;> simp_all

lemma chainFold_totalRewards (inp : ChainInput) :
    (chainFold inp).2.totalRewards = sumRebaseChange (chainFold inp).1 := by
  have h := runFold_totalRewards (stepChain (chainCfg inp)) (fun s => s.totalRewards)
    (stepChain_totalRewards (chainCfg inp)) (chainEvents inp) (chainInitState inp)
  simpa [chainFold, chainInitState] using h

lemma subgraphFold_totalRewards (f : SubgraphFetchers) (inp : SubgraphInput) :
    (subgraphFold f inp).2.totalRewards = sumRebaseChange (subgraphFold f inp).1 := by
  have h := runFold_totalRewards (stepSubgraph ⟨inp.address, inp.withdrawalQueueAddress⟩)
    (fun s => s.totalRewards)
    (stepSubgraph_totalRewards ⟨inp.address, inp.withdrawalQueueAddress⟩)
    (subgraphEvents f inp) (subgraphInitState f inp)
  simpa [subgraphFold, subgraphInitState] using h

lemma chainFold_balanceSharesOk (inp : ChainInput) :
    balanceSharesOk inp.baseBalanceShares (chainFold inp).1 = true := by
  have h := runFold_balanceSharesOk (stepChain (chainCfg inp)) (fun s => s.prevSharesBalance)
    (stepChain_balanceShares (chainCfg inp)) (stepChain_prevShares (chainCfg inp))
    (chainEvents inp) (chainInitState inp)
  simpa [chainInitState, chainFold] using h

lemma subgraphFold_balanceSharesOk (cfg : AddressCfg) :
    ∀ (es : List RewardsSubgraphEvent) (st : SubgraphFoldState),
      subgraphSharesConsistent cfg st.prevBalanceShares es = true →
      balanceSharesOk st.prevBalanceShares ((runFold (stepSubgraph cfg) st es).1) = true := by
  intro es
  induction es with
  | nil => intro st h; rfl
  | cons e es ih =>
    intro st h
    cases e with
    | transfer t =>
      by_cases hto : addressEqual t.to_ cfg.address = true
      · simp only [subgraphSharesConsistent, if_pos hto, Bool.and_eq_true, beq_iff_eq] at h
        simp only [runFold, stepSubgraph, if_pos hto, balanceSharesOk,
          Bool.and_eq_true, beq_iff_eq]
        refine ⟨h.1, ?_⟩
        exact ih ⟨t.sharesAfterIncrease, t.balanceAfterIncrease, st.totalRewards⟩ h.2
      · simp only [subgraphSharesConsistent, if_neg hto, Bool.and_eq_true, beq_iff_eq] at h
        simp only [runFold, stepSubgraph, if_neg hto, balanceSharesOk,
          Bool.and_eq_true, beq_iff_eq]
        refine ⟨by omega, ?_⟩
        exact ih ⟨t.sharesAfterDecrease, t.balanceAfterDecrease, st.totalRewards⟩ h.2
    | totalReward t =>
      simp only [subgraphSharesConsistent] at h
      simp only [runFold, stepSubgraph, balanceSharesOk, Bool.and_eq_true, beq_iff_eq]
      refine ⟨by omega, ?_⟩
      exact ih ⟨st.prevBalanceShares,
        sharesToSteth st.prevBalanceShares t.totalPooledEtherAfter t.totalSharesAfter PRECISION,
        st.totalRewards + (sharesToSteth st.prevBalanceShares t.totalPooledEtherAfter
          t.totalSharesAfter PRECISION - st.prevBalance)⟩ h

lemma pairwise_sortedByKey {ε : Type} (key : ε → Int × Int) :
    ∀ {rs : List (Reward ε)},
      List.Pairwise (fun r1 r2 => lexLe (key r1.originalEvent) (key r2.originalEvent)) rs →
      sortedByKey key rs = true := by
  intro rs
  induction rs with
  | nil => intro h; rfl
  | cons r rs ih =>
    intro h
    rw [List.pairwise_cons] at h
    cases rs with
    | nil => rfl
    | cons r2 rs2 =>
      simp only [sortedByKey, Bool.and_eq_true, decide_eq_true_eq]
      exact ⟨h.1 r2 (List.mem_cons_self _ _), ih h.2⟩

lemma pairwise_filterOnlyRebases {ε : Type} {R : Reward ε → Reward ε → Prop} (o : Bool)
    {rs : List (Reward ε)} (h : List.Pairwise R rs) :
    List.Pairwise R (filterOnlyRebases o rs) := by
  unfold filterOnlyRebases
  split
  · exact h.filter _
  · exact h

lemma pairwise_filterZeroRebases {ε : Type} {R : Reward ε → Reward ε → Prop} (z : Bool)
    {rs : List (Reward ε)} (h : List.Pairwise R rs) :
    List.Pairwise R (filterZeroRebases z rs) := by
  unfold filterZeroRebases
  split
  · exact h.filter _
  · exact h

lemma mem_filterOnlyRebases {ε : Type} {o : Bool} {rs : List (Reward ε)} {r : Reward ε}
    (h : r ∈ filterOnlyRebases o rs) : r ∈ rs := by
  unfold filterOnlyRebases at h
  split at h
  · exact List.mem_of_mem_filter h
  · exact h

lemma mem_filterZeroRebases {ε : Type} {z : Bool} {rs : List (Reward ε)} {r : Reward ε}
    (h : r ∈ filterZeroRebases z rs) : r ∈ rs := by
  unfold filterZeroRebases at h
  split at h
  · exact List.mem_of_mem_filter h
  · exact h

lemma chainFold_pairwise (inp : ChainInput) :
    List.Pairwise
      (fun r1 r2 : Reward RewardsChainEvent => chainEventLe r1.originalEvent r2.originalEvent)
      (chainFold inp).1 := by
  have hmap : ((chainFold inp).1).map (fun r => r.originalEvent) = chainEvents inp :=
    runFold_map_originalEvent (stepChain (chainCfg inp)) (stepChain_originalEvent (chainCfg inp))
      (chainEvents inp) (chainInitState inp)
  have hs : List.Pairwise chainEventLe (chainEvents inp) :=
    List.sorted_insertionSort chainEventLe _
  rw [← hmap] at hs
  exact List.pairwise_map.mp hs

lemma subgraphFold_pairwise (f : SubgraphFetchers) (inp : SubgraphInput) :
    List.Pairwise
      (fun r1 r2 : Reward RewardsSubgraphEvent => subgraphEventLe r1.originalEvent r2.originalEvent)
      (subgraphFold f inp).1 := by
  have hmap : ((subgraphFold f inp).1).map (fun r => r.originalEvent) = subgraphEvents f inp :=
    runFold_map_originalEvent (stepSubgraph ⟨inp.address, inp.withdrawalQueueAddress⟩)
      (stepSubgraph_originalEvent ⟨inp.address, inp.withdrawalQueueAddress⟩)
      (subgraphEvents f inp) (subgraphInitState f inp)
  have hs : List.Pairwise subgraphEventLe (subgraphEvents f inp) :=
    List.sorted_insertionSort subgraphEventLe _
  rw [← hmap] at hs
  exact List.pairwise_map.mp hs

lemma getRewardsFromChain_ok {inp : ChainInput}
    (h : inp.earliestRebaseEventBlock ≤ inp.fromBlock) :
    getRewardsFromChain inp = Except.ok
      { rewards := filterZeroRebases inp.includeZeroRebases
          (filterOnlyRebases inp.includeOnlyRebases (chainFold inp).1)
        baseBalanceShares := inp.baseBalanceShares
        baseShareRate := (chainInitState inp).shareRate
        baseBalance := sharesToSteth inp.baseBalanceShares inp.baseTotalEther
          inp.baseTotalShares PRECISION
        totalRewards := (chainFold inp).2.totalRewards
        fromBlock := inp.fromBlock
        toBlock := inp.toBlock } := by
  unfold getRewardsFromChain
  rw [if_neg (by omega)]

lemma syntheticRebases_block (delta S : Int) :
    ∀ (N : Nat) (E0 b : Int) (e : TokenRebasedEvent),
      e ∈ syntheticRebases E0 delta S b N → b ≤ e.blockNumber := by
  intro N
  induction N with
  | zero => intro E0 b e h; simp [syntheticRebases] at h
  | succ n ih =>
    intro E0 b e h
    simp only [syntheticRebases, List.mem_cons] at h
    rcases h with h | h
    · subst h; simp
    · have := ih (E0 + delta) (b + 1) e h
      omega

lemma syntheticRebases_pairwise (delta S : Int) :
    ∀ (N : Nat) (E0 b : Int),
      List.Pairwise chainEventLe
        ((syntheticRebases E0 delta S b N).map RewardsChainEvent.tokenRebased) := by
  intro N
  induction N with
  | zero => intro E0 b; simp [syntheticRebases]
  | succ n ih =>
    intro E0 b
    simp only [syntheticRebases, List.map_cons, List.pairwise_cons]
    constructor
    · intro ev hev
      simp only [List.mem_map] at hev
      obtain ⟨e, he, rfl⟩ := hev
      have hb := syntheticRebases_block delta S n (E0 + delta) (b + 1) e he
      simp only [chainEventLe, chainEventKey, lexLe]
      omega
    · exact ih (E0 + delta) (b + 1)

lemma chainEvents_synthetic (s E0 S delta : Int) (N : Nat) :
    chainEvents (syntheticChainInput s E0 S delta N) =
      (syntheticRebases E0 delta S 1 N).map RewardsChainEvent.tokenRebased := by
  show List.insertionSort chainEventLe _ = _
  simp only [syntheticChainInput, List.map_nil, List.nil_append]
  exact List.Sorted.insertionSort_eq (syntheticRebases_pairwise delta S N E0 1)

lemma runFold_synthetic (cfg : AddressCfg) (delta S : Int) :
    ∀ (N : Nat) (E0 b rate s tot : Int),
      (((runFold (stepChain cfg) ⟨E0, S, rate, s, tot⟩
          ((syntheticRebases E0 delta S b N).map RewardsChainEvent.tokenRebased)).1).map
          (fun r => r.change) = expectedRebaseChanges s E0 S delta N) ∧
      ((runFold (stepChain cfg) ⟨E0, S, rate, s, tot⟩
          ((syntheticRebases E0 delta S b N).map RewardsChainEvent.tokenRebased)).2).totalRewards =
        tot + (expectedRebaseChanges s E0 S delta N).sum := by
  intro N
  induction N with
  | zero =>
    intro E0 b rate s tot
    simp [syntheticRebases, expectedRebaseChanges, runFold]
  | succ n ih =>
    intro E0 b rate s tot
    have ihh := ih (E0 + delta) (b + 1) (calcShareRate (E0 + delta) S PRECISION) s
      (tot + (sharesToSteth s (E0 + delta) S PRECISION - sharesToSteth s E0 S PRECISION))
    simp only [syntheticRebases, expectedRebaseChanges, List.map_cons, runFold, stepChain,
      List.sum_cons]
    refine ⟨?_, ?_⟩
    · rw [ihh.1]
    · rw [ihh.2]
      ring

/-- Claim C1: for every query to `getRewardsFromChain` or
`getRewardsFromSubgraph`, the returned `totalRewards` equals the sum of
the `change` fields of all rebase-typed records of the unfiltered
merged-and-folded sequence, and the value does not depend on the
`includeZeroRebases` / `includeOnlyRebases` settings (the accumulator is
updated inside the fold, before any post-filter runs). -/
theorem rewards_totalRewards_is_unfiltered_rebase_sum :
    (∀ inp : ChainInput, inp.earliestRebaseEventBlock ≤ inp.fromBlock →
      (getRewardsFromChain inp).map (fun res => res.totalRewards) =
        Except.ok (sumRebaseChange (chainFold inp).1)) ∧
    (∀ (inp : ChainInput) (z o zq oq : Bool),
      (getRewardsFromChain
          { inp with includeZeroRebases := z, includeOnlyRebases := o }).map
          (fun res => res.totalRewards) =
        (getRewardsFromChain
          { inp with includeZeroRebases := zq, includeOnlyRebases := oq }).map
          (fun res => res.totalRewards)) ∧
    (∀ (f : SubgraphFetchers) (inp : SubgraphInput),
      (getRewardsFromSubgraph f inp).totalRewards =
        sumRebaseChange (subgraphFold f inp).1) ∧
    (∀ (f : SubgraphFetchers) (inp : SubgraphInput) (z o zq oq : Bool),
      (getRewardsFromSubgraph f
          { inp with includeZeroRebases := z, includeOnlyRebases := o }).totalRewards =
        (getRewardsFromSubgraph f
          { inp with includeZeroRebases := zq, includeOnlyRebases := oq }).totalRewards) := by
  refine ⟨?_, ?_, ?_, ?_⟩
  · intro inp h
    rw [getRewardsFromChain_ok h]
    simp only [Except.map]
    exact congrArg Except.ok (chainFold_totalRewards inp)
  · intro inp z o zq oq
    by_cases hb : inp.fromBlock < inp.earliestRebaseEventBlock
    · simp [getRewardsFromChain, hb]
    · simp only [getRewardsFromChain, hb, if_neg, ite_false, Except.map]
      rfl
  · intro f inp
    exact subgraphFold_totalRewards f inp
  · intro f inp z o zq oq
    rfl

/-- Witness for C1: the sample chain query satisfies the bound hypothesis
and its `totalRewards` equals the unfiltered rebase-change sum. -/
theorem rewards_totalRewards_is_unfiltered_rebase_sum_witness :
    sampleChainInput.earliestRebaseEventBlock ≤ sampleChainInput.fromBlock ∧
    (getRewardsFromChain sampleChainInput).map (fun res => res.totalRewards) =
      Except.ok (sumRebaseChange (chainFold sampleChainInput).1) :=
  ⟨by decide, rewards_totalRewards_is_unfiltered_rebase_sum.1 sampleChainInput (by decide)⟩

/-- Claim C7: `getRewardsFromChain` fails with the non-retryable
`NOT_SUPPORTED` domain error whenever the resolved `fromBlock` is strictly
below the per-network earliest-TokenRebased-event block constant; the
`Except.error` result carries no partial data. -/
theorem rewards_earliest_block_not_supported (inp : ChainInput)
    (h : inp.fromBlock < inp.earliestRebaseEventBlock) :
    getRewardsFromChain inp = Except.error
      { message := "Cannot index events earlier than first TokenRebased event at block " ++
          toString inp.earliestRebaseEventBlock
        code := "NOT_SUPPORTED" } := by
  unfold getRewardsFromChain
  rw [if_pos h]

/-- Witness for C7: the sample query against a network with earliest
rebase block 100 errors out with `NOT_SUPPORTED`. -/
theorem rewards_earliest_block_not_supported_witness :
    badChainInput.fromBlock < badChainInput.earliestRebaseEventBlock ∧
    getRewardsFromChain badChainInput = Except.error
      { message := "Cannot index events earlier than first TokenRebased event at block " ++
          toString badChainInput.earliestRebaseEventBlock
        code := "NOT_SUPPORTED" } :=
  ⟨by decide, rewards_earliest_block_not_supported badChainInput (by decide)⟩

/-- Claim C9: when the requested `toBlock` exceeds the subgraph's last
indexed block, the query behaves exactly as if `toBlock` were the last
indexed block (both event streams are fetched up to the capped bound) and
the returned ledger's `toBlock` equals the capped value. -/
theorem rewards_subgraph_toBlock_capped (f : SubgraphFetchers) (inp : SubgraphInput)
    (h : inp.lastIndexedBlock < inp.toBlock) :
    getRewardsFromSubgraph f inp =
      getRewardsFromSubgraph f { inp with toBlock := inp.lastIndexedBlock } ∧
    (getRewardsFromSubgraph f inp).toBlock = inp.lastIndexedBlock := by
  have hc : cappedToBlock inp = inp.lastIndexedBlock := by
    unfold cappedToBlock
    rw [if_pos h]
  have hc2 : cappedToBlock { inp with toBlock := inp.lastIndexedBlock } = inp.lastIndexedBlock := by
    unfold cappedToBlock
    simp
  constructor
  · simp only [getRewardsFromSubgraph, subgraphFold, subgraphEvents, subgraphInitState,
      subgraphSeedOf, subgraphPreBlock, hc, hc2]
  · simp only [getRewardsFromSubgraph, hc]

/-- Witness for C9: the sample subgraph query requests `toBlock = 10`
beyond last indexed block 5 and is capped. -/
theorem rewards_subgraph_toBlock_capped_witness :
    sampleSubgraphInput.lastIndexedBlock < sampleSubgraphInput.toBlock ∧
    getRewardsFromSubgraph sampleFetchers sampleSubgraphInput =
      getRewardsFromSubgraph sampleFetchers
        { sampleSubgraphInput with toBlock := sampleSubgraphInput.lastIndexedBlock } ∧
    (getRewardsFromSubgraph sampleFetchers sampleSubgraphInput).toBlock =
      sampleSubgraphInput.lastIndexedBlock :=
  ⟨by decide,
    (rewards_subgraph_toBlock_capped sampleFetchers sampleSubgraphInput (by decide)).1,
    (rewards_subgraph_toBlock_capped sampleFetchers sampleSubgraphInput (by decide)).2⟩

/-- Claim C10: every `TransferShares` event whose `to` equals the queried
address is handled by the incoming branch (`submit` or `transfer_in`) and
adds `sharesValue` to the running share balance — including a
self-transfer whose `from` also equals the queried address, for which the
balance still increases rather than staying unchanged. -/
theorem rewards_incoming_branch_adds_shares (cfg : AddressCfg) (st : ChainFoldState)
    (e : TransferSharesEvent) (h : e.to_ = cfg.address) :
    (((stepChain cfg st (.transferShares e)).1).type = RewardType.submit ∨
      ((stepChain cfg st (.transferShares e)).1).type = RewardType.transfer_in) ∧
    ((stepChain cfg st (.transferShares e)).1).balanceShares =
      st.prevSharesBalance + e.sharesValue ∧
    ((stepChain cfg st (.transferShares e)).2).prevSharesBalance =
      st.prevSharesBalance + e.sharesValue := by
  simp only [stepChain, if_pos h]
  by_cases hf : e.from_ = zeroAddress <;> simp [hf]

/-- Witness for C10: a self-transfer of 25 shares by account 1 is
classified as incoming and raises the running balance from 100 to 125. -/
theorem rewards_incoming_branch_adds_shares_witness :
    (⟨1, 1, 25, 1, 0⟩ : TransferSharesEvent).to_ = (⟨1, 2⟩ : AddressCfg).address ∧
    (⟨1, 1, 25, 1, 0⟩ : TransferSharesEvent).from_ = (⟨1, 2⟩ : AddressCfg).address ∧
    (((stepChain ⟨1, 2⟩ ⟨1000, 1000, 0, 100, 0⟩
        (.transferShares ⟨1, 1, 25, 1, 0⟩)).1).type = RewardType.submit ∨
      ((stepChain ⟨1, 2⟩ ⟨1000, 1000, 0, 100, 0⟩
        (.transferShares ⟨1, 1, 25, 1, 0⟩)).1).type = RewardType.transfer_in) ∧
    ((stepChain ⟨1, 2⟩ ⟨1000, 1000, 0, 100, 0⟩
        (.transferShares ⟨1, 1, 25, 1, 0⟩)).1).balanceShares = 100 + 25 ∧
    ((stepChain ⟨1, 2⟩ ⟨1000, 1000, 0, 100, 0⟩
        (.transferShares ⟨1, 1, 25, 1, 0⟩)).2).prevSharesBalance = 100 + 25 :=
  ⟨rfl, rfl, rewards_incoming_branch_adds_shares ⟨1, 2⟩ ⟨1000, 1000, 0, 100, 0⟩
    ⟨1, 1, 25, 1, 0⟩ rfl⟩

/-- Claim C2: the `includeOnlyRebases` post-filter retains only
rebase-typed records when `false` (the default) and the full mixed
sequence when `true`, on both source paths.  Stated as the exact
filter-stage semantics plus end-to-end: with `includeOnlyRebases = false`
every returned record is rebase-typed; with it `true` (and the separate
zero-rebase filter also disabled) the full folded sequence is returned. -/
theorem rewards_includeOnlyRebases_polarity :
    (∀ (ε : Type) (rs : List (Reward ε)),
      filterOnlyRebases false rs = rs.filter (fun r => r.type == RewardType.rebase) ∧
      filterOnlyRebases true rs = rs) ∧
    (∀ inp : ChainInput, inp.includeOnlyRebases = false →
      inp.earliestRebaseEventBlock ≤ inp.fromBlock →
      (getRewardsFromChain inp).map
          (fun res => res.rewards.all (fun r => r.type == RewardType.rebase)) =
        Except.ok true) ∧
    (∀ inp : ChainInput, inp.includeOnlyRebases = true → inp.includeZeroRebases = true →
      inp.earliestRebaseEventBlock ≤ inp.fromBlock →
      (getRewardsFromChain inp).map (fun res => res.rewards) =
        Except.ok (chainFold inp).1) ∧
    (∀ (f : SubgraphFetchers) (inp : SubgraphInput), inp.includeOnlyRebases = false →
      (getRewardsFromSubgraph f inp).rewards.all
          (fun r => r.type == RewardType.rebase) = true) ∧
    (∀ (f : SubgraphFetchers) (inp : SubgraphInput), inp.includeOnlyRebases = true →
      inp.includeZeroRebases = true →
      (getRewardsFromSubgraph f inp).rewards = (subgraphFold f inp).1) := by
  refine ⟨?_, ?_, ?_, ?_, ?_⟩
  · intro ε rs
    exact ⟨rfl, rfl⟩
  · intro inp ho h
    rw [getRewardsFromChain_ok h]
    simp only [Except.map, ho, Except.ok.injEq]
    rw [List.all_eq_true]
    intro r hr
    have hr2 := mem_filterZeroRebases hr
    rw [show filterOnlyRebases false (chainFold inp).1 =
      ((chainFold inp).1).filter (fun r => r.type == RewardType.rebase) from rfl] at hr2
    exact (List.mem_filter.mp hr2).2
  · intro inp ho hz h
    rw [getRewardsFromChain_ok h]
    simp only [Except.map, Except.ok.injEq]
    rw [ho, hz]
    rfl
  · intro f inp ho
    rw [List.all_eq_true]
    intro r hr
    have hr2 : r ∈ filterOnlyRebases inp.includeOnlyRebases
        (filterZeroRebases inp.includeZeroRebases (subgraphFold f inp).1) := hr
    rw [ho] at hr2
    rw [show filterOnlyRebases false (filterZeroRebases inp.includeZeroRebases (subgraphFold f inp).1) =
      (filterZeroRebases inp.includeZeroRebases (subgraphFold f inp).1).filter
        (fun r => r.type == RewardType.rebase) from rfl] at hr2
    exact (List.mem_filter.mp hr2).2
  · intro f inp ho hz
    show filterOnlyRebases inp.includeOnlyRebases
      (filterZeroRebases inp.includeZeroRebases (subgraphFold f inp).1) = _
    rw [ho, hz]
    rfl

/-- Witness for C2: the sample chain query (default flags) returns only
rebase records, and with both flags set the sample query returns the full
folded sequence. -/
theorem rewards_includeOnlyRebases_polarity_witness :
    sampleChainInput.includeOnlyRebases = false ∧
    sampleChainInput.earliestRebaseEventBlock ≤ sampleChainInput.fromBlock ∧
    (getRewardsFromChain sampleChainInput).map
        (fun res => res.rewards.all (fun r => r.type == RewardType.rebase)) =
      Except.ok true ∧
    (getRewardsFromSubgraph sampleFetchers sampleSubgraphInputAll).rewards =
      (subgraphFold sampleFetchers sampleSubgraphInputAll).1 :=
  ⟨rfl, by decide,
    rewards_includeOnlyRebases_polarity.2.1 sampleChainInput rfl (by decide),
    rewards_includeOnlyRebases_polarity.2.2.2.2 sampleFetchers sampleSubgraphInputAll rfl rfl⟩

/-- Counterexample to claim C3 as stated: on the concrete chain query
`cexChainInput` (default filter settings) the returned sequence keeps the
two rebase records around a dropped transfer, so the second record's
`balanceShares` (200) differs from the first's plus its `changeShares`
(100 + 0): the chaining invariant fails on the returned (filtered)
sequence. -/
theorem rewards_balanceShares_chain_counterexample :
    (getRewardsFromChain cexChainInput).toOption.map
        (fun res => balanceSharesOk res.baseBalanceShares res.rewards) = some false := by
  decide

/-- Claim C3 (amended): the `balanceShares` chaining invariant holds for
the unfiltered sequence — returned when `includeOnlyRebases = true` and
`includeZeroRebases = true` — unconditionally on the chain path, and on
the subgraph path provided the entities' denormalized after-shares agree
with their signed share deltas along the stream; rebase records always
have `changeShares = 0` (hence leave `balanceShares` unchanged) on both
paths.  With the post-filters active (in particular at the default
settings) the invariant can fail, as the counterexample shows. -/
theorem rewards_balanceShares_running_invariant :
    (∀ inp : ChainInput, inp.earliestRebaseEventBlock ≤ inp.fromBlock →
      inp.includeOnlyRebases = true → inp.includeZeroRebases = true →
      (getRewardsFromChain inp).map
          (fun res => balanceSharesOk res.baseBalanceShares res.rewards) =
        Except.ok true) ∧
    (∀ (f : SubgraphFetchers) (inp : SubgraphInput),
      inp.includeOnlyRebases = true → inp.includeZeroRebases = true →
      subgraphSharesConsistent ⟨inp.address, inp.withdrawalQueueAddress⟩
          (getRewardsFromSubgraph f inp).baseBalanceShares (subgraphEvents f inp) = true →
      balanceSharesOk (getRewardsFromSubgraph f inp).baseBalanceShares
          (getRewardsFromSubgraph f inp).rewards = true) ∧
    (∀ inp : ChainInput, ∀ r ∈ (chainFold inp).1,
      r.type = RewardType.rebase → r.changeShares = 0) ∧
    (∀ (f : SubgraphFetchers) (inp : SubgraphInput), ∀ r ∈ (subgraphFold f inp).1,
      r.type = RewardType.rebase → r.changeShares = 0) := by
  refine ⟨?_, ?_, ?_, ?_⟩
  · intro inp h ho hz
    rw [getRewardsFromChain_ok h]
    simp only [Except.map, Except.ok.injEq]
    rw [ho, hz]
    show balanceSharesOk inp.baseBalanceShares (chainFold inp).1 = true
    exact chainFold_balanceSharesOk inp
  · intro f inp ho hz hcons
    have hrw : (getRewardsFromSubgraph f inp).rewards = (subgraphFold f inp).1 := by
      show filterOnlyRebases inp.includeOnlyRebases
        (filterZeroRebases inp.includeZeroRebases (subgraphFold f inp).1) = _
      rw [ho, hz]
      rfl
    rw [hrw]
    exact subgraphFold_balanceSharesOk ⟨inp.address, inp.withdrawalQueueAddress⟩
      (subgraphEvents f inp) (subgraphInitState f inp) hcons
  · intro inp r hr hty
    exact runFold_rebase_changeShares (stepChain (chainCfg inp))
      (stepChain_rebase_changeShares (chainCfg inp)) (chainEvents inp) (chainInitState inp)
      r hr hty
  · intro f inp r hr hty
    exact runFold_rebase_changeShares (stepSubgraph ⟨inp.address, inp.withdrawalQueueAddress⟩)
      (stepSubgraph_rebase_changeShares ⟨inp.address, inp.withdrawalQueueAddress⟩)
      (subgraphEvents f inp) (subgraphInitState f inp) r hr hty

/-- Witness for the amended C3: the unfiltered sample queries satisfy the
chaining invariant on both paths (the subgraph sample's denormalized
after-shares are consistent). -/
theorem rewards_balanceShares_running_invariant_witness :
    (getRewardsFromChain sampleChainInputAll).map
        (fun res => balanceSharesOk res.baseBalanceShares res.rewards) = Except.ok true ∧
    balanceSharesOk (getRewardsFromSubgraph sampleFetchers sampleSubgraphInputAll).baseBalanceShares
        (getRewardsFromSubgraph sampleFetchers sampleSubgraphInputAll).rewards = true :=
  ⟨rewards_balanceShares_running_invariant.1 sampleChainInputAll (by decide) rfl rfl,
    rewards_balanceShares_running_invariant.2.1 sampleFetchers sampleSubgraphInputAll rfl rfl
      (by decide)⟩

/-- Claim C6: the returned sequence is non-decreasing in the
`(blockNumber, logIndex)` key of the underlying events, on both paths:
the merge sorts the concatenated streams by that key before the fold, the
fold emits one record per event in order, and the post-filters preserve
order. -/
theorem rewards_sequence_sorted_by_key :
    (∀ inp : ChainInput, inp.earliestRebaseEventBlock ≤ inp.fromBlock →
      (getRewardsFromChain inp).map
          (fun res => sortedByKey chainEventKey res.rewards) = Except.ok true) ∧
    (∀ (f : SubgraphFetchers) (inp : SubgraphInput),
      sortedByKey subgraphEventKey (getRewardsFromSubgraph f inp).rewards = true) := by
  constructor
  · intro inp h
    rw [getRewardsFromChain_ok h]
    simp only [Except.map, Except.ok.injEq]
    apply pairwise_sortedByKey
    apply pairwise_filterZeroRebases
    apply pairwise_filterOnlyRebases
    exact chainFold_pairwise inp
  · intro f inp
    apply pairwise_sortedByKey
    apply pairwise_filterOnlyRebases
    apply pairwise_filterZeroRebases
    exact subgraphFold_pairwise f inp

/-- Witness for C6: the sample chain query returns a key-sorted
sequence. -/
theorem rewards_sequence_sorted_by_key_witness :
    sampleChainInput.earliestRebaseEventBlock ≤ sampleChainInput.fromBlock ∧
    (getRewardsFromChain sampleChainInput).map
        (fun res => sortedByKey chainEventKey res.rewards) = Except.ok true :=
  ⟨by decide, rewards_sequence_sorted_by_key.1 sampleChainInput (by decide)⟩

/-- Counterexample to claim C4 as stated: for the synthetic stream with
`shares = 1`, base ether 1, total shares 2, one rebase of delta 1, the
produced rebase `change` is `1` (difference of two truncated
conversions), while `sharesToAsset(shares, deltaEther, totalShares)`
computed once is `0`: the per-record equality of the claim fails under
truncating division. -/
theorem rewards_synthetic_roundTrip_counterexample :
    (getRewardsFromChain (syntheticChainInput 1 1 2 1 1)).toOption.map
        (fun res => res.rewards.map (fun r => r.change)) = some [1] ∧
    sharesToSteth 1 1 2 PRECISION = 0 := by
  constructor
  · decide
  · decide

/-- Claim C4 (amended): for every synthetic input of zero transfers and
`N` rebases each raising total-ether by `delta` with total-shares
constant, each rebase record's `change` equals the difference
`sharesToAsset(shares, etherAfter, totalShares) - sharesToAsset(shares,
etherBefore, totalShares)` of consecutive truncated conversions (which
need not equal the single truncated conversion of the delta), and the sum
of the `N` changes equals `totalRewards`. -/
theorem rewards_synthetic_roundTrip (s E0 S delta : Int) (N : Nat) :
    (getRewardsFromChain (syntheticChainInput s E0 S delta N)).map
        (fun res => (res.rewards.map (fun r => r.change), res.totalRewards)) =
      Except.ok (expectedRebaseChanges s E0 S delta N,
        (expectedRebaseChanges s E0 S delta N).sum) := by
  have h0 : (syntheticChainInput s E0 S delta N).earliestRebaseEventBlock ≤
      (syntheticChainInput s E0 S delta N).fromBlock := le_refl 0
  rw [getRewardsFromChain_ok h0]
  simp only [Except.map, Except.ok.injEq]
  have hrw : filterZeroRebases (syntheticChainInput s E0 S delta N).includeZeroRebases
      (filterOnlyRebases (syntheticChainInput s E0 S delta N).includeOnlyRebases
        (chainFold (syntheticChainInput s E0 S delta N)).1) =
      (chainFold (syntheticChainInput s E0 S delta N)).1 := rfl
  rw [hrw]
  have hfold := runFold_synthetic (⟨1, 2⟩ : AddressCfg) delta S N E0 1
    (calcShareRate E0 S PRECISION) s 0
  have h1 : ((chainFold (syntheticChainInput s E0 S delta N)).1).map (fun r => r.change) =
      expectedRebaseChanges s E0 S delta N := by
    show ((runFold (stepChain (⟨1, 2⟩ : AddressCfg))
        (⟨E0, S, calcShareRate E0 S PRECISION, s, 0⟩ : ChainFoldState)
        (chainEvents (syntheticChainInput s E0 S delta N))).1).map (fun r => r.change) = _
    rw [chainEvents_synthetic]
    exact hfold.1
  have h2 : ((chainFold (syntheticChainInput s E0 S delta N)).2).totalRewards =
      (expectedRebaseChanges s E0 S delta N).sum := by
    show ((runFold (stepChain (⟨1, 2⟩ : AddressCfg))
        (⟨E0, S, calcShareRate E0 S PRECISION, s, 0⟩ : ChainFoldState)
        (chainEvents (syntheticChainInput s E0 S delta N))).2).totalRewards = _
    rw [chainEvents_synthetic]
    rw [hfold.2]
    ring
  rw [Prod.ext_iff]
  exact ⟨h1, h2⟩

/-- Claim C5: transfer classification — `submit` when shares arrive at
the queried account from the zero/mint address, `transfer_in` when they
arrive from any other address, `withdrawal` when they depart to the
withdrawal-queue contract, `transfer_out` when they depart to any other
address; and the classification agrees between the chain and subgraph
folds on transfers carrying the same `from`/`to` pair. -/
theorem rewards_transfer_classification :
    (∀ (cfg : AddressCfg) (st : ChainFoldState) (e : TransferSharesEvent),
      e.to_ = cfg.address → e.from_ = zeroAddress →
      ((stepChain cfg st (.transferShares e)).1).type = RewardType.submit) ∧
    (∀ (cfg : AddressCfg) (st : ChainFoldState) (e : TransferSharesEvent),
      e.to_ = cfg.address → e.from_ ≠ zeroAddress →
      ((stepChain cfg st (.transferShares e)).1).type = RewardType.transfer_in) ∧
    (∀ (cfg : AddressCfg) (st : ChainFoldState) (e : TransferSharesEvent),
      e.to_ ≠ cfg.address → e.to_ = cfg.withdrawalQueueAddress →
      ((stepChain cfg st (.transferShares e)).1).type = RewardType.withdrawal) ∧
    (∀ (cfg : AddressCfg) (st : ChainFoldState) (e : TransferSharesEvent),
      e.to_ ≠ cfg.address → e.to_ ≠ cfg.withdrawalQueueAddress →
      ((stepChain cfg st (.transferShares e)).1).type = RewardType.transfer_out) ∧
    (∀ (cfg : AddressCfg) (stc : ChainFoldState) (sts : SubgraphFoldState)
        (e : TransferSharesEvent) (t : TransferEventEntity),
      t.from_ = e.from_ → t.to_ = e.to_ →
      ((stepSubgraph cfg sts (.transfer t)).1).type =
        ((stepChain cfg stc (.transferShares e)).1).type) := by
  refine ⟨?_, ?_, ?_, ?_, ?_⟩
  · intro cfg st e ht hf
    simp [stepChain, ht, hf]
  · intro cfg st e ht hf
    simp [stepChain, ht, hf]
  · intro cfg st e ht hw
    simp only [stepChain]
    rw [if_neg ht]
    simp [hw]
  · intro cfg st e ht hw
    simp only [stepChain]
    rw [if_neg ht]
    simp [hw]
  · intro cfg stc sts e t hf ht
    simp only [stepChain, stepSubgraph, addressEqual, hf, ht]
    by_cases h1 : e.to_ = cfg.address
    · rw [if_pos h1, if_pos (show (e.to_ == cfg.address) = true by simp [h1])]
    · rw [if_neg h1, if_neg (show ¬(e.to_ == cfg.address) = true by simp [h1])]
      by_cases h2 : e.to_ = cfg.withdrawalQueueAddress
      · rw [if_pos h2, if_pos (show (e.to_ == cfg.withdrawalQueueAddress) = true by simp [h2])]
      · rw [if_neg h2, if_neg (show ¬(e.to_ == cfg.withdrawalQueueAddress) = true by simp [h2])]

/-- Witness for C5: concrete classifications — mint to account 1
(`submit`), external transfer in (`transfer_in`), transfer to the
withdrawal queue (`withdrawal`), transfer to a third party
(`transfer_out`), and chain/subgraph agreement on the transfer-in pair. -/
theorem rewards_transfer_classification_witness :
    ((stepChain ⟨1, 2⟩ ⟨1000, 1000, 0, 100, 0⟩
        (.transferShares ⟨0, 1, 5, 1, 0⟩)).1).type = RewardType.submit ∧
    ((stepChain ⟨1, 2⟩ ⟨1000, 1000, 0, 100, 0⟩
        (.transferShares ⟨7, 1, 5, 1, 0⟩)).1).type = RewardType.transfer_in ∧
    ((stepChain ⟨1, 2⟩ ⟨1000, 1000, 0, 100, 0⟩
        (.transferShares ⟨1, 2, 5, 1, 0⟩)).1).type = RewardType.withdrawal ∧
    ((stepChain ⟨1, 2⟩ ⟨1000, 1000, 0, 100, 0⟩
        (.transferShares ⟨1, 9, 5, 1, 0⟩)).1).type = RewardType.transfer_out ∧
    ((stepSubgraph ⟨1, 2⟩ ⟨0, 0, 0⟩
        (.transfer ⟨7, 1, 5, 105, 5, 0, 105, 0, 1000, 1000, 1, 0⟩)).1).type =
      ((stepChain ⟨1, 2⟩ ⟨1000, 1000, 0, 100, 0⟩
        (.transferShares ⟨7, 1, 5, 1, 0⟩)).1).type :=
  ⟨rewards_transfer_classification.1 ⟨1, 2⟩ ⟨1000, 1000, 0, 100, 0⟩ ⟨0, 1, 5, 1, 0⟩ rfl rfl,
    rewards_transfer_classification.2.1 ⟨1, 2⟩ ⟨1000, 1000, 0, 100, 0⟩ ⟨7, 1, 5, 1, 0⟩ rfl
      (by decide),
    rewards_transfer_classification.2.2.1 ⟨1, 2⟩ ⟨1000, 1000, 0, 100, 0⟩ ⟨1, 2, 5, 1, 0⟩
      (by decide) rfl,
    rewards_transfer_classification.2.2.2.1 ⟨1, 2⟩ ⟨1000, 1000, 0, 100, 0⟩ ⟨1, 9, 5, 1, 0⟩
      (by decide) (by decide),
    rewards_transfer_classification.2.2.2.2 ⟨1, 2⟩ ⟨1000, 1000, 0, 100, 0⟩ ⟨0, 0, 0⟩
      ⟨7, 1, 5, 1, 0⟩ ⟨7, 1, 5, 105, 5, 0, 105, 0, 1000, 1000, 1, 0⟩ rfl rfl⟩

/-- Claim C8 (code bug): the range resolver is claimed to raise an
argument error for a block tag only when the tag refers to a pending
block.  `invariantArgument(number, 'block must not be pending')` is a JS
truthiness test on `bigint | null`, so it also fires for the mined
genesis block (number `0n`): resolving tag `earliest` on a chain where it
is block 0 raises the argument error even though the block is mined. -/
theorem parseProps_genesis_tag_argument_error :
    parseProps ⟨fun _ => some 0, fun _ => 0, 0⟩
      ⟨some (BlockArg.tag "earliest"), none, ⟨none, none, none⟩, none, none, none⟩ =
      Except.error (invalidArgumentError "block must not be pending") := by
  rfl
